import Mathlib

/-!
Verification of the VEAP object-model service façade and HTTP handler of the
go-lib repository (packages `veap` and `veap/model`).

Modelling conventions:
* Go strings are byte sequences; they are modelled as `List Char` where each
  character stands for one byte (theorem hypotheses restrict to code points
  below 256 where byte-level percent-escaping matters).
* Go interface capabilities (`AttributeReader`, `Collection`, `Item`,
  `LinkReader`, `PVReader`, ...) become optional fields of a single object
  record: a `none`/`false` field models a failed type assertion `obj.(Cap)`.
* A Go `Object` pointer implicitly carries its chain of parent collections
  (through `Item.GetCollection`).  An object reference is therefore modelled
  as a located object `LocObj`: the object together with its ancestor chain
  (direct parent first).  The root is the unique object with an empty chain
  and, matching the concrete node types (`Root` has no `BasicItem`, every
  collection member is an `ItemObject`), an object implements `Item` exactly
  when its chain is non-empty.
* Capabilities with object-defined behaviour (`WriteAttributes`,
  `CreateItem`, `DeleteItem`) are modelled as function fields returning their
  `veap.Error` result (`none` = Go `nil`), so "the capability's result is
  returned verbatim" is directly statable.
-/

/-- Go strings at byte granularity. -/
abbrev GoStr := List Char

/-- Conversion helper for readable literals. -/
def gs (s : String) : GoStr := s.toList

/-- JSON-representable attribute values (Go `interface{}` as far as the
claims need them). -/
inductive Val where
  | vNull
  | vBool (b : Bool)
  | vInt (n : Int)
  | vStr (s : GoStr)
deriving DecidableEq

/-- `veap.Error`: an error message together with a VEAP status code. -/
structure VErr where
  code : Int
  msg : GoStr
deriving DecidableEq

/-- VEAP service status codes (src/veap/service.go). -/
def StatusOK : Int := 200

def StatusCreated : Int := 201

def StatusBadRequest : Int := 400

def StatusNotFound : Int := 404

def StatusMethodNotAllowed : Int := 405

def StatusInternalServerError : Int := 500

def StatusClientError : Int := 900

/-! ### Percent escaping (Go net/url, path-segment mode) -/

/-- Go `ishex`. -/
def isHexChar (c : Char) : Bool :=
  ('0' ≤ c && c ≤ '9') || ('a' ≤ c && c ≤ 'f') || ('A' ≤ c && c ≤ 'F')

/-- Go `unhex`. -/
def unhexVal (c : Char) : Nat :=
  if '0' ≤ c ∧ c ≤ '9' then c.toNat - 48
  else if 'a' ≤ c ∧ c ≤ 'f' then c.toNat - 97 + 10
  else if 'A' ≤ c ∧ c ≤ 'F' then c.toNat - 65 + 10
  else 0

/-- Go `upperhex` digit table. -/
def upperHexDigit (n : Nat) : Char :=
  if n < 10 then Char.ofNat (48 + n) else Char.ofNat (55 + n)

/-- Go `shouldEscape(c, encodePathSegment)`: alphanumerics and `-_.~` are
kept, of the reserved characters `$&+,/:;=?@` exactly `/;,?` are escaped in a
path segment, everything else is escaped. -/
def shouldEscapePathSegment (c : Char) : Bool :=
  if ('a' ≤ c ∧ c ≤ 'z') ∨ ('A' ≤ c ∧ c ≤ 'Z') ∨ ('0' ≤ c ∧ c ≤ '9') then false
  else if c = '-' ∨ c = '_' ∨ c = '.' ∨ c = '~' then false
  else if c = '$' ∨ c = '&' ∨ c = '+' ∨ c = ',' ∨ c = '/' ∨ c = ':' ∨ c = ';' ∨
      c = '=' ∨ c = '?' ∨ c = '@' then
    decide (c = '/' ∨ c = ';' ∨ c = ',' ∨ c = '?')
  else true

/-- One byte of Go `escape`: either the byte itself or `%XX`. -/
def escapeChar (c : Char) : GoStr :=
  if shouldEscapePathSegment c then
    ['%', upperHexDigit (c.toNat / 16), upperHexDigit (c.toNat % 16)]
  else [c]

/-- Go `url.PathEscape`. -/
def pathEscape (s : GoStr) : GoStr :=
  s.foldr (fun c acc => escapeChar c ++ acc) []

/-- Go `url.PathUnescape`: a `%` must be followed by two hex digits (else the
call fails), `+` and every other byte pass through unchanged. -/
def pathUnescape : GoStr → Option GoStr
  | [] => some []
  | c :: rest =>
    if c = '%' then
      match rest with
      | h :: l :: rest2 =>
        if isHexChar h && isHexChar l then
          (pathUnescape rest2).map (fun t => Char.ofNat (16 * unhexVal h + unhexVal l) :: t)
        else none
      | _ => none
    else (pathUnescape rest).map (fun t => c :: t)

/-! ### The object model (src/veap/model/model.go and its implementation) -/

/-- A stored non-hierarchical link (`model.Link`): the target object pointer
is modelled as the target together with its ancestor chain (direct parent
first), plus the role label. -/
structure StoredLink (σ : Type) where
  targetAnc : List σ
  target : σ
  role : GoStr

/-- All data of one model object.  `σ` is the object type itself (tied by
`Obj`).  Optional fields model the optional capability interfaces. -/
structure ObjCore (σ : Type) where
  identifier : GoStr
  title : GoStr
  description : GoStr
  /-- `AttributeReader` capability and the map `ReadAttributes` returns
  (association list without duplicate keys, as a Go map). -/
  attrReader : Option (List (GoStr × Val))
  /-- `Item.GetCollectionRole` result (meaningful for non-root objects). -/
  collectionRole : GoStr
  hasPVReader : Bool
  hasPVWriter : Bool
  hasHistoryReader : Bool
  hasHistoryWriter : Bool
  /-- `AttributeWriter` capability: `WriteAttributes` with its error result. -/
  attributeWriter : Option (List (GoStr × Val) → Option VErr)
  /-- `CollectionModifier` capability: `CreateItem` and `DeleteItem` with
  their error results. -/
  collectionModifier : Option ((GoStr → List (GoStr × Val) → Option VErr) × (GoStr → Option VErr))
  /-- `LinkReader` capability and the links `ReadLinks` returns. -/
  linkReader : Option (List (StoredLink σ))
  /-- `Collection` capability: item role and the children `Items` returns. -/
  collection : Option (GoStr × List σ)

/-- A VEAP model object. -/
inductive Obj : Type where
  | mk : ObjCore Obj → Obj

/-- The record of an object. -/
def Obj.core : Obj → ObjCore Obj
  | .mk c => c

/-- A located object: a Go object pointer together with its parent chain
(direct parent first, root last). -/
structure LocObj where
  anc : List Obj
  obj : Obj

/-- `model.Service`: the façade over an object tree. -/
structure Service where
  Root : Obj

/-- The location of the root of a service. -/
def rootLoc (s : Service) : LocObj := ⟨[], s.Root⟩

/-- Inner loop of `model.absPathRecursive`: while the object is an `Item`
(i.e. the ancestor chain is non-empty), emit the parent's path followed by
a slash and the escaped identifier. -/
def absPathRev : List Obj → Obj → GoStr
  | [], _ => []
  | parent :: rest, obj =>
    absPathRev rest parent ++ '/' :: pathEscape obj.core.identifier

/-- `model.AbsPath`: the absolute escaped path of an object; the root's own
path is `/`. -/
def AbsPath (loc : LocObj) : GoStr :=
  let p := absPathRev loc.anc loc.obj
  if p = [] then gs "/" else p

/-- `model.GetItem`: look a child up in a container object, failing with a
not-found error when the object is not a collection or no child matches. -/
def GetItem (loc : LocObj) (id : GoStr) : Except VErr LocObj :=
  match loc.obj.core.collection with
  | none => .error ⟨StatusNotFound, gs "Not a collection: " ++ AbsPath loc⟩
  | some (_, items) =>
    match items.find? (fun o => decide (o.core.identifier = id)) with
    | none =>
      .error ⟨StatusNotFound, gs "Item not found at " ++ AbsPath loc ++ gs ": " ++ id⟩
    | some child => .ok ⟨loc.obj :: loc.anc, child⟩

/-- Go `strings.IndexRune(path, '/')` splitting: the segment before the
first slash and the remainder after it (the whole string and `""` when no
slash occurs). -/
def splitFirstSlash : GoStr → GoStr × GoStr
  | [] => ([], [])
  | c :: rest =>
    if c = '/' then ([], rest)
    else
      let p := splitFirstSlash rest
      (c :: p.1, p.2)

theorem splitFirstSlash_snd_length : ∀ s : GoStr, (splitFirstSlash s).2.length ≤ s.length := by
  intro s
  induction s with
  | nil => simp [splitFirstSlash]
  | cons c rest ih =>
    simp only [splitFirstSlash]
    by_cases h : c = '/' <;> simp [h] <;> omega

theorem splitFirstSlash_snd_lt (s : GoStr) (h : s ≠ []) :
    (splitFirstSlash s).2.length < s.length := by
  match s with
  | [] => exact absurd rfl h
  | c :: rest =>
    simp only [splitFirstSlash]
    have := splitFirstSlash_snd_length rest
    by_cases hc : c = '/' <;> simp [hc] <;> omega

/-- `model.evalPathRecursive`: take the segment up to the next slash,
percent-decode it (client error on failure), look the child up and recurse
on the remainder; the empty path resolves to the current object. -/
def evalPathRecursive (loc : LocObj) (path : GoStr) : Except VErr LocObj :=
  if h : path = [] then .ok loc
  else
    let p := splitFirstSlash path
    match pathUnescape p.1 with
    | none => .error ⟨StatusBadRequest, gs "invalid URL escape in: " ++ p.1⟩
    | some id =>
      match GetItem loc id with
      | .error e => .error e
      | .ok item => evalPathRecursive item p.2
termination_by path.length
decreasing_by exact splitFirstSlash_snd_lt path h

/-- `Service.EvalPath`: a path must start with a slash (client error
otherwise); the remainder is resolved recursively from the root. -/
def Service.EvalPath (s : Service) (path : GoStr) : Except VErr LocObj :=
  match path with
  | [] => .error ⟨StatusBadRequest, gs "Path starts not with a slash: " ++ path⟩
  | c :: rest =>
    if c = '/' then evalPathRecursive (rootLoc s) rest
    else .error ⟨StatusBadRequest, gs "Path starts not with a slash: " ++ (c :: rest)⟩

/-! ### Property aggregation (`Service.ReadProperties`) -/

/-- `veap.AttrValues` as an association list with map semantics. -/
abbrev AttrValues := List (GoStr × Val)

/-- Go map assignment `m[k] = v`: replace the binding or append it. -/
def setAttrVal (m : AttrValues) (k : GoStr) (v : Val) : AttrValues :=
  match m with
  | [] => [(k, v)]
  | kv :: rest => if kv.1 = k then (k, v) :: rest else kv :: setAttrVal rest k v

/-- Go map lookup. -/
def lookupAttr (m : AttrValues) (k : GoStr) : Option Val :=
  match m with
  | [] => none
  | kv :: rest => if kv.1 = k then some kv.2 else lookupAttr rest k

/-- `veap.Link`: role, (escaped) target path and title. -/
structure VLink where
  role : GoStr
  target : GoStr
  title : GoStr
deriving DecidableEq

/-- Reserved property names (src/veap/model/model.go). -/
def IdentifierProperty : GoStr := gs "identifier"

def TitleProperty : GoStr := gs "title"

def DescriptionProperty : GoStr := gs "description"

/-- `Service.ReadProperties`: after path resolution, merge the free-form
attributes with the non-empty identifier/title/description fields, then
collect, in order: child links, the parent link, stored links, the `~pv`
service link and the `~hist` service link, depending on the capabilities of
the resolved object. -/
def Service.ReadProperties (s : Service) (path : GoStr) :
    Except VErr (AttrValues × List VLink) :=
  match s.EvalPath path with
  | .error e => .error e
  | .ok loc =>
    let obj := loc.obj
    -- read attributes
    let attr0 : AttrValues :=
      match obj.core.attrReader with
      | some kvs => kvs.foldl (fun m kv => setAttrVal m kv.1 kv.2) []
      | none => []
    let attr1 := if obj.core.identifier ≠ [] then
        setAttrVal attr0 IdentifierProperty (.vStr obj.core.identifier) else attr0
    let attr2 := if obj.core.title ≠ [] then
        setAttrVal attr1 TitleProperty (.vStr obj.core.title) else attr1
    let attr3 := if obj.core.description ≠ [] then
        setAttrVal attr2 DescriptionProperty (.vStr obj.core.description) else attr2
    -- get items
    let links0 : List VLink :=
      match obj.core.collection with
      | some (itemRole, items) =>
        items.map (fun item => ⟨itemRole, pathEscape item.core.identifier, item.core.title⟩)
      | none => []
    -- get collection (the object is an `Item` exactly when it is not the root)
    let links1 : List VLink :=
      match loc.anc with
      | parent :: _ => links0 ++ [⟨obj.core.collectionRole, gs "..", parent.core.title⟩]
      | [] => links0
    -- get links
    let links2 : List VLink :=
      match obj.core.linkReader with
      | some stored =>
        links1 ++ stored.map (fun l =>
          ⟨l.role, AbsPath ⟨l.targetAnc, l.target⟩, l.target.core.title⟩)
      | none => links1
    -- PV service
    let links3 : List VLink :=
      if obj.core.hasPVReader || obj.core.hasPVWriter then
        links2 ++ [⟨gs "service", gs "~pv", gs "PV Service"⟩]
      else links2
    -- history service
    let links4 : List VLink :=
      if obj.core.hasHistoryReader || obj.core.hasHistoryWriter then
        links3 ++ [⟨gs "service", gs "~hist", gs "History Service"⟩]
      else links3
    .ok (attr3, links4)

/-! ### Go `path.Clean`, `path.Dir`, `path.Base` -/

/-- Split a string at every occurrence of a character (`strings.Split`
shape: the empty string yields one empty field). -/
def splitAllChar (c : Char) : GoStr → List GoStr
  | [] => [[]]
  | a :: rest =>
    if a = c then [] :: splitAllChar c rest
    else
      match splitAllChar c rest with
      | s :: ss => (a :: s) :: ss
      | [] => [[a]]

/-- Element loop of Go `path.Clean` with the lazy output buffer represented
as the stack of emitted path elements (top first): empty and `.` elements
are dropped, `..` pops an element when one is there to pop (for a rooted
path a `..` at the root is dropped, for an unrooted path it accumulates),
any other element is pushed. -/
def cleanStack (rooted : Bool) (out : List GoStr) : List GoStr → List GoStr
  | [] => out.reverse
  | seg :: rest =>
    if seg = [] ∨ seg = ['.'] then cleanStack rooted out rest
    else if seg = ['.', '.'] then
      match out with
      | top :: outRest =>
        if top = ['.', '.'] then cleanStack rooted (seg :: out) rest
        else cleanStack rooted outRest rest
      | [] =>
        if rooted then cleanStack rooted [] rest
        else cleanStack rooted [seg] rest
    else cleanStack rooted (seg :: out) rest

/-- Go `path.Clean` (lexical path cleaning). -/
def goClean (p : GoStr) : GoStr :=
  if p = [] then gs "."
  else
    let rooted := p.head? = some '/'
    let elems := cleanStack rooted [] (splitAllChar '/' p)
    let joined := List.intercalate ['/'] elems
    if rooted then '/' :: joined
    else if joined = [] then gs "." else joined

/-- Go `path.Split` first component: everything up to and including the
final slash (empty when the path has no slash). -/
def takeToLastSlash (p : GoStr) : GoStr :=
  ((p.reverse).dropWhile (fun c => c ≠ '/')).reverse

/-- Go `path.Dir`. -/
def goDir (p : GoStr) : GoStr := goClean (takeToLastSlash p)

/-- Go `path.Base`: strip trailing slashes and take the part after the last
remaining slash (`"."` for the empty path, `"/"` for all-slash paths). -/
def goBase (p : GoStr) : GoStr :=
  if p = [] then gs "."
  else
    let q := ((p.reverse).dropWhile (fun c => c = '/')).reverse
    let r := ((q.reverse).takeWhile (fun c => c ≠ '/')).reverse
    if r = [] then gs "/" else r

/-! ### Property write and delete (`Service.WriteProperties`, `Service.Delete`) -/

/-- `model.setAttr`: delegate to the `AttributeWriter` capability, failing
with a method-not-allowed error when the object lacks it. -/
def setAttr (path : GoStr) (obj : Obj) (attr : List (GoStr × Val)) : Option VErr :=
  match obj.core.attributeWriter with
  | some write => write attr
  | none => some ⟨StatusMethodNotAllowed, gs "Writing of attributes not supported: " ++ path⟩

/-- `Service.WriteProperties`: the root is written directly; otherwise the
parent path is resolved, an existing child receives the attribute write, and
a missing child is created through the parent's `CollectionModifier`
capability (method-not-allowed without it). -/
def Service.WriteProperties (s : Service) (objPath : GoStr) (attributes : List (GoStr × Val)) :
    Bool × Option VErr :=
  -- special case root
  if objPath = gs "/" then (false, setAttr objPath s.Root attributes)
  else
    match s.EvalPath (goDir objPath) with
    | .error e => (false, some e)
    | .ok containerLoc =>
      let childIdent := goBase objPath
      match GetItem containerLoc childIdent with
      | .ok childLoc => (false, setAttr objPath childLoc.obj attributes)
      | .error _ =>
        match containerLoc.obj.core.collectionModifier with
        | none => (false, some ⟨StatusMethodNotAllowed, gs "Create not supported: " ++ objPath⟩)
        | some modifier =>
          match modifier.1 childIdent attributes with
          | some e => (false, some e)
          | none => (true, none)

/-- `Service.Delete`: the root can never be deleted; otherwise the parent is
resolved and removal is delegated to its `CollectionModifier` capability
(method-not-allowed without it). -/
def Service.Delete (s : Service) (itemPath : GoStr) : Option VErr :=
  if itemPath = gs "/" then
    some ⟨StatusMethodNotAllowed, gs "Root can not be deleted"⟩
  else
    match s.EvalPath (goDir itemPath) with
    | .error e => some e
    | .ok containerLoc =>
      match containerLoc.obj.core.collectionModifier with
      | none => some ⟨StatusMethodNotAllowed, gs "Delete not supported: " ++ itemPath⟩
      | some modifier => modifier.2 (goBase itemPath)

/-! ### Link storage (`model.BasicLinks`) -/

/-- `model.BasicLinks`: the stored link set, keyed (as a Go map) by the pair
of target identity and role.  `α` stands for the target object identity. -/
structure BasicLinks (α : Type) where
  lobj : List (α × GoStr)

/-- `BasicLinks.PutLink`: add a link, reporting whether it was added. -/
def BasicLinks.PutLink [DecidableEq α] (l : BasicLinks α) (target : α) (role : GoStr) :
    Bool × BasicLinks α :=
  if (target, role) ∈ l.lobj then (false, l)
  else (true, ⟨(target, role) :: l.lobj⟩)

/-- `BasicLinks.RemoveLink`: remove a link, reporting whether it was there. -/
def BasicLinks.RemoveLink [DecidableEq α] (l : BasicLinks α) (target : α) (role : GoStr) :
    Bool × BasicLinks α :=
  if (target, role) ∈ l.lobj then (true, ⟨l.lobj.erase (target, role)⟩)
  else (false, l)

/-- `BasicLinks.ReadLinks`: the stored links. -/
def BasicLinks.ReadLinks [DecidableEq α] (l : BasicLinks α) : List (α × GoStr) :=
  l.lobj

/-! ### Collections (`model.BasicCollection`)

The member map `map[string]ItemObject` of a Go `BasicCollection` does not
record insertion order, and Go map iteration order is unspecified.  The map
state is therefore represented canonically: an association list strictly
sorted by key, so that extensionally equal maps are equal values.  `Items`
returns the members in that canonical order — one admissible iteration
order; nothing about it reflects insertion order, which is the point of the
claim about it. -/

/-- Strict lexicographic order on Go strings (the canonical key order of
the map representation). -/
def goStrLt (a b : GoStr) : Bool := decide (a < b)

/-- `model.BasicCollection`: member map in canonical (key-sorted) form,
paired with the item role.  `β` stands for the member object type. -/
structure BasicCollection (β : Type) where
  objects : List (GoStr × β)

/-- Sorted-insert-or-replace into the canonical member list. -/
def insSorted (m : List (GoStr × β)) (id : GoStr) (obj : β) : List (GoStr × β) :=
  match m with
  | [] => [(id, obj)]
  | kv :: rest =>
    if kv.1 = id then (id, obj) :: rest
    else if goStrLt id kv.1 then (id, obj) :: kv :: rest
    else kv :: insSorted rest id obj

/-- `BasicCollection.PutItem` keyed by the item's identifier: replaces an
existing member and returns the replaced one. -/
def BasicCollection.PutItem (c : BasicCollection β) (id : GoStr) (obj : β) :
    Option β × BasicCollection β :=
  ((c.objects.find? (fun kv => decide (kv.1 = id))).map (fun kv => kv.2),
   ⟨insSorted c.objects id obj⟩)

/-- `BasicCollection.RemoveItem`: delete by identifier, returning the
removed member (or `none`). -/
def BasicCollection.RemoveItem (c : BasicCollection β) (id : GoStr) :
    Option β × BasicCollection β :=
  ((c.objects.find? (fun kv => decide (kv.1 = id))).map (fun kv => kv.2),
   ⟨c.objects.filter (fun kv => decide (kv.1 ≠ id))⟩)

/-- `BasicCollection.Item`: lookup by identifier. -/
def BasicCollection.Item (c : BasicCollection β) (id : GoStr) : Option β :=
  (c.objects.find? (fun kv => decide (kv.1 = id))).map (fun kv => kv.2)

/-- `BasicCollection.Items`: snapshot of all members, in the map's
iteration order (canonically: key order). -/
def BasicCollection.Items (c : BasicCollection β) : List β :=
  c.objects.map (fun kv => kv.2)

/-- The empty collection. -/
def BasicCollection.empty : BasicCollection β := ⟨[]⟩

/-- Replay a sequence of insertions (`PutItem` calls) from the empty
collection. -/
def applyPuts (ops : List (GoStr × β)) : BasicCollection β :=
  ops.foldl (fun c op => (c.PutItem op.1 op.2).2) BasicCollection.empty

/-- Reference semantics of a sequence of insertions: the last insertion for
a key wins (later operations are further down the list, so they are
consulted first). -/
def specLookup (ops : List (GoStr × β)) (id : GoStr) : Option β :=
  match ops with
  | [] => none
  | op :: rest =>
    match specLookup rest id with
    | some v => some v
    | none => if op.1 = id then some op.2 else none

/-! ### Process-value state bands (src/veap/service.go) -/

/-- `veap.StateGood`. -/
def StateGood : Int := 0

/-- `veap.StateUncertain`. -/
def StateUncertain : Int := 100

/-- `veap.StateBad`. -/
def StateBad : Int := 200

/-- `State.Good`. -/
def stateGood (s : Int) : Bool := decide (StateGood ≤ s) && decide (s < StateUncertain)

/-- `State.Uncertain`. -/
def stateUncertain (s : Int) : Bool := decide (StateUncertain ≤ s) && decide (s < StateBad)

/-- `State.Bad`. -/
def stateBad (s : Int) : Bool := decide (StateBad ≤ s) || decide (s < StateGood)

/-! ### HTTP handler, history GET parameters (`Handler.serveHistory`) -/

/-- Decoded HTTP query parameters (`url.Values`). -/
abbrev QueryParams := List (GoStr × List GoStr)

/-- Lookup of a query parameter's value list. -/
def lookupParam (params : QueryParams) (name : GoStr) : Option (List GoStr) :=
  (params.find? (fun kv => decide (kv.1 = name))).map (fun kv => kv.2)

/-- Digit-string parsing helper for `strconv.ParseInt`. -/
def parseDigits : GoStr → Option Nat
  | [] => none
  | ds => ds.foldl (fun acc c =>
      match acc with
      | none => none
      | some n => if '0' ≤ c ∧ c ≤ '9' then some (10 * n + (c.toNat - 48)) else none)
      (some 0)

/-- Go `strconv.ParseInt(s, 10, 64)`: optional sign, decimal digits, 64-bit
range check. -/
def parseInt64 (s : GoStr) : Option Int :=
  let signed : Option Int :=
    match s with
    | '+' :: rest => (parseDigits rest).map (fun n => (n : Int))
    | '-' :: rest => (parseDigits rest).map (fun n => -(n : Int))
    | _ => (parseDigits s).map (fun n => (n : Int))
  match signed with
  | none => none
  | some i => if -(2 ^ 63) ≤ i ∧ i < 2 ^ 63 then some i else none

/-- `veap.parseIntParam`: absent parameter is `none`; a repeated or
malformed parameter is a bad-request error. -/
def parseIntParam (params : QueryParams) (name : GoStr) : Except VErr (Option Int) :=
  match lookupParam params name with
  | none => .ok none
  | some values =>
    match values with
    | [txt] =>
      match parseInt64 txt with
      | some i => .ok (some i)
      | none => .error ⟨StatusBadRequest, gs "Invalid request parameter: " ++ name⟩
    | _ => .error ⟨StatusBadRequest, gs "Invalid request parameter: " ++ name⟩

/-- `veap.parseTimeParam`: the parameter is epoch milliseconds; the result
is epoch nanoseconds (`time.Unix(0, i*1000000)`). -/
def parseTimeParam (params : QueryParams) (name : GoStr) : Except VErr (Option Int) :=
  match parseIntParam params name with
  | .error e => .error e
  | .ok none => .ok none
  | .ok (some i) => .ok (some (i * 1000000))

/-- `Handler.historySizeLimit`: the configured limit, defaulting to 10000
when unset (zero). -/
def historySizeLimit (cfgLimit : Int) : Int :=
  if cfgLimit = 0 then 10000 else cfgLimit

/-- Nanoseconds in 24 hours. -/
def nanos24h : Int := 86400000000000

/-- Parameter handling of `Handler.serveHistory`, up to the `ReadHistory`
service invocation: the returned triple `(begin, end, limit)` (times in
epoch nanoseconds) is what the service is invoked with; an error means the
service is not invoked.  `now` abstracts `time.Now()`. -/
def serveHistoryArgs (cfgLimit : Int) (now : Int) (params : QueryParams) :
    Except VErr (Int × Int × Int) :=
  match parseTimeParam params (gs "begin") with
  | .error e => .error e
  | .ok beginOpt =>
    match parseTimeParam params (gs "end") with
    | .error e => .error e
    | .ok endOpt =>
      let range : Except VErr (Int × Int) :=
        match beginOpt, endOpt with
        | some b, some e2 => .ok (b, e2)
        | none, none => .ok (now - nanos24h, now)
        | some _, none => .error ⟨StatusBadRequest, gs "Missing request parameter: end"⟩
        | none, some _ => .error ⟨StatusBadRequest, gs "Missing request parameter: begin"⟩
      match range with
      | .error e => .error e
      | .ok (b, e2) =>
        match parseIntParam params (gs "limit") with
        | .error e => .error e
        | .ok limitOpt =>
          let maxLimit := historySizeLimit cfgLimit
          let limit :=
            match limitOpt with
            | some l => if l > maxLimit then maxLimit else l
            | none => maxLimit
          .ok (b, e2, limit)

/-! ### Segment-wise reading of path resolution (the specification's view)

The specification describes `EvalPath` as: split the remainder on `/`,
percent-decode each segment, descend one segment at a time.  `goSegments`
performs the split exactly as the implementation's slash scanning does
(a final empty segment produced by a trailing slash is not descended into,
because the recursion stops on the empty remainder), and `evalSegments`
is the segment-at-a-time descent. -/

/-- The segments the resolution loop descends through. -/
def goSegments (path : GoStr) : List GoStr :=
  if h : path = [] then []
  else (splitFirstSlash path).1 :: goSegments (splitFirstSlash path).2
termination_by path.length
decreasing_by exact splitFirstSlash_snd_lt path h

/-- Segment-at-a-time descent: decode, look up, recurse. -/
def evalSegments (loc : LocObj) : List GoStr → Except VErr LocObj
  | [] => .ok loc
  | seg :: rest =>
    match pathUnescape seg with
    | none => .error ⟨StatusBadRequest, gs "invalid URL escape in: " ++ seg⟩
    | some id =>
      match GetItem loc id with
      | .error e => .error e
      | .ok item => evalSegments item rest

/-! ### Helper lemmas -/

/-- Go-map reading of an association list: the last binding of a key wins
(keys of an actual Go map are unique, so this is ordinary map lookup). -/
def lookupLast (kvs : List (GoStr × Val)) (k : GoStr) : Option Val :=
  match kvs with
  | [] => none
  | kv :: rest =>
    match lookupLast rest k with
    | some v => some v
    | none => if kv.1 = k then some kv.2 else none

theorem lookupAttr_setAttrVal (m : AttrValues) (k : GoStr) (v : Val) (k' : GoStr) :
    lookupAttr (setAttrVal m k v) k' = if k' = k then some v else lookupAttr m k' := by
  induction m with
  | nil =>
    by_cases h : k' = k
    · subst h; simp [setAttrVal, lookupAttr]
    · simp [setAttrVal, lookupAttr, h, Ne.symm h]
  | cons kv rest ih =>
    by_cases h1 : kv.1 = k
    · subst h1
      by_cases h2 : k' = kv.1
      · subst h2; simp [setAttrVal, lookupAttr]
      · simp [setAttrVal, lookupAttr, h2, Ne.symm h2]
    · by_cases h2 : kv.1 = k'
      · subst h2
        simp [setAttrVal, lookupAttr, h1, show ¬ (kv.1 = k) from h1, Ne.symm h1]
      · simp [setAttrVal, lookupAttr, h1, h2, ih]

theorem lookupAttr_copy (kvs : List (GoStr × Val)) (m : AttrValues) (k : GoStr) :
    lookupAttr (kvs.foldl (fun m kv => setAttrVal m kv.1 kv.2) m) k =
      match lookupLast kvs k with
      | some v => some v
      | none => lookupAttr m k := by
  induction kvs generalizing m with
  | nil => simp [lookupLast]
  | cons kv rest ih =>
    simp only [List.foldl_cons, lookupLast, ih, lookupAttr_setAttrVal]
    cases lookupLast rest k with
    | some v => simp
    | none =>
      by_cases h : kv.1 = k
      · simp [h]
      · simp [h, show ¬ (k = kv.1) from fun hc => h (hc ▸ rfl)]

/-- One unfolding step of `evalPathRecursive` on a non-empty path. -/
theorem evalPathRecursive_cons (loc : LocObj) (path : GoStr) (h : path ≠ []) :
    evalPathRecursive loc path =
      match pathUnescape (splitFirstSlash path).1 with
      | none => .error ⟨StatusBadRequest, gs "invalid URL escape in: " ++ (splitFirstSlash path).1⟩
      | some id =>
        match GetItem loc id with
        | .error e => .error e
        | .ok item => evalPathRecursive item (splitFirstSlash path).2 := by
  rw [evalPathRecursive]
  simp [h]

/-- One unfolding step of `goSegments` on a non-empty path. -/
theorem goSegments_cons (path : GoStr) (h : path ≠ []) :
    goSegments path = (splitFirstSlash path).1 :: goSegments (splitFirstSlash path).2 := by
  rw [goSegments]
  simp [h]

/-- The implementation's slash-scanning recursion is the segment-at-a-time
descent over the split path. -/
theorem evalPathRecursive_eq_evalSegments (loc : LocObj) (path : GoStr) :
    evalPathRecursive loc path = evalSegments loc (goSegments path) := by
  generalize hn : path.length = n
  induction n using Nat.strong_induction_on generalizing loc path with
  | _ n ih =>
    by_cases h : path = []
    · subst h
      rw [evalPathRecursive, goSegments]
      simp [evalSegments]
    · rw [evalPathRecursive_cons loc path h, goSegments_cons path h]
      simp only [evalSegments]
      cases hu : pathUnescape (splitFirstSlash path).1 with
      | none => simp
      | some id =>
        cases hg : GetItem loc id with
        | error e => simp [hg]
        | ok item =>
          simp only [hg]
          subst hn
          exact ih _ (splitFirstSlash_snd_lt path h) item _ rfl

/-! ### Witness fixtures: a small concrete object tree -/

/-- A leaf child object with identifier `a`, readable/writable PV and a
writable attribute capability. -/
def leafA : Obj := .mk ⟨gs "a", gs "A", [], none, gs "collection",
  true, false, false, false, some (fun _ => none), none, none, none⟩

/-- A plain root holding `leafA`. -/
def rootPlain : Obj := .mk ⟨gs "root", gs "Root", [], none, [],
  false, false, false, false, none, none, none, some (gs "item", [leafA])⟩

/-- A richer root: free-form attributes, a stored link to `leafA` (a child
of `rootPlain`), history read capability, a modifiable collection. -/
def rootRich : Obj := .mk ⟨gs "root", gs "Root", gs "D",
  some [(gs "x", .vInt 1), (gs "title", .vStr (gs "shadowed"))], [],
  false, false, true, false, none,
  some ((fun _ _ => none), (fun _ => none)),
  some [⟨[rootPlain], leafA, gs "rel1"⟩],
  some (gs "item", [leafA])⟩

/-- An object with no capabilities at all. -/
def objBare : Obj := .mk ⟨gs "bare", [], [], none, [],
  false, false, false, false, none, none, none, none⟩

def svcPlain : Service := ⟨rootPlain⟩

def svcRich : Service := ⟨rootRich⟩

def svcBare : Service := ⟨objBare⟩

/-! ### C8 — state classification bands -/

/-- C8: an integer state is good exactly on `[0,100)`, uncertain exactly on
`[100,200)` and bad exactly on `[200,∞) ∪ (-∞,0)`; every state falls into
exactly one band, and in particular 0 and 99 are good, 100 and 199 are
uncertain, 200 and -1 are bad. -/
theorem c8_state_bands (s : Int) :
    (stateGood s = true ↔ 0 ≤ s ∧ s < 100) ∧
    (stateUncertain s = true ↔ 100 ≤ s ∧ s < 200) ∧
    (stateBad s = true ↔ 200 ≤ s ∨ s < 0) ∧
    ((stateGood s = true ∧ stateUncertain s = false ∧ stateBad s = false) ∨
     (stateGood s = false ∧ stateUncertain s = true ∧ stateBad s = false) ∨
     (stateGood s = false ∧ stateUncertain s = false ∧ stateBad s = true)) ∧
    stateGood 0 = true ∧ stateGood 99 = true ∧ stateUncertain 100 = true ∧
    stateUncertain 199 = true ∧ stateBad 200 = true ∧ stateBad (-1) = true := by
  refine ⟨?_, ?_, ?_, ?_, ?_, ?_, ?_, ?_, ?_, ?_⟩ <;>
    simp [stateGood, stateUncertain, stateBad, StateGood, StateUncertain, StateBad] <;>
    omega

/-! ### C10 — structure queries always succeed after resolution -/

/-- C10: `ReadProperties` fails exactly when path resolution fails, with the
resolution error; once the path resolves, property aggregation itself always
succeeds, whatever capabilities the object has. -/
theorem c10_read_properties_total (s : Service) (p : GoStr) :
    (∀ e, s.ReadProperties p = .error e ↔ s.EvalPath p = .error e) ∧
    (∀ loc, s.EvalPath p = .ok loc → ∃ r, s.ReadProperties p = .ok r) := by
  constructor
  · intro e
    cases h : s.EvalPath p with
    | error e0 => simp [Service.ReadProperties, h]
    | ok loc0 => simp [Service.ReadProperties, h]
  · intro loc hl
    unfold Service.ReadProperties
    rw [hl]
    exact ⟨_, rfl⟩

/-- Witness for C10 at a concrete service and path. -/
theorem c10_witness :
    svcBare.EvalPath (gs "/") = .ok (rootLoc svcBare) ∧
    ∃ r, svcBare.ReadProperties (gs "/") = .ok r := by
  have h : svcBare.EvalPath (gs "/") = .ok (rootLoc svcBare) := by
    simp [Service.EvalPath, gs, evalPathRecursive]
  exact ⟨h, (c10_read_properties_total svcBare (gs "/")).2 _ h⟩

/-! ### C1 — path resolution -/

/-- C1: a path that is empty or does not start with a slash fails with a
bad-request error; otherwise the remainder after the leading slash is split
on `/` and resolution descends segment at a time from the root: each segment
is percent-decoded (bad-request on a malformed escape), descent uses the
collection's item lookup and fails not-found as soon as the current object
is not a collection or no child matches; an empty remaining segment list
resolves to the current object, so `/` resolves to the root itself. -/
theorem c1_eval_path (s : Service) (p : GoStr) :
    ((p = [] ∨ p.head? ≠ some '/') → ∃ m, s.EvalPath p = .error ⟨StatusBadRequest, m⟩) ∧
    (∀ rest, p = '/' :: rest → s.EvalPath p = evalSegments (rootLoc s) (goSegments rest)) ∧
    (s.EvalPath (gs "/") = .ok (rootLoc s)) ∧
    (∀ loc, evalSegments loc [] = .ok loc) ∧
    (∀ loc seg rest, pathUnescape seg = none →
      ∃ m, evalSegments loc (seg :: rest) = .error ⟨StatusBadRequest, m⟩) ∧
    (∀ loc seg rest id child, pathUnescape seg = some id → GetItem loc id = .ok child →
      evalSegments loc (seg :: rest) = evalSegments child rest) ∧
    (∀ loc seg rest id e, pathUnescape seg = some id → GetItem loc id = .error e →
      evalSegments loc (seg :: rest) = .error e) ∧
    (∀ loc id, loc.obj.core.collection = none →
      ∃ m, GetItem loc id = .error ⟨StatusNotFound, m⟩) ∧
    (∀ loc id itemRole items, loc.obj.core.collection = some (itemRole, items) →
      items.find? (fun o => decide (o.core.identifier = id)) = none →
      ∃ m, GetItem loc id = .error ⟨StatusNotFound, m⟩) := by
  refine ⟨?_, ?_, ?_, ?_, ?_, ?_, ?_, ?_, ?_⟩
  · intro h
    match p, h with
    | [], _ => exact ⟨_, rfl⟩
    | c :: rest, h =>
      have hc : ¬ (c = '/') := by
        rcases h with h | h
        · exact absurd h (by simp)
        · simpa using h
      exact ⟨gs "Path starts not with a slash: " ++ (c :: rest),
        by simp [Service.EvalPath, hc]⟩
  · intro rest hp
    subst hp
    simp [Service.EvalPath, evalPathRecursive_eq_evalSegments]
  · simp [gs, Service.EvalPath, evalPathRecursive]
  · intro loc; rfl
  · intro loc seg rest hu
    exact ⟨gs "invalid URL escape in: " ++ seg, by simp [evalSegments, hu]⟩
  · intro loc seg rest id child hu hg
    simp [evalSegments, hu, hg]
  · intro loc seg rest id e hu hg
    simp [evalSegments, hu, hg]
  · intro loc id hcol
    exact ⟨gs "Not a collection: " ++ AbsPath loc, by simp [GetItem, hcol]⟩
  · intro loc id itemRole items hcol hfind
    exact ⟨gs "Item not found at " ++ AbsPath loc ++ gs ": " ++ id,
      by simp [GetItem, hcol, hfind]⟩

/-- Witness for C1: a path without a leading slash is rejected, a malformed
escape is rejected, a missing child is not found, and `/a` resolves to the
child below the root. -/
theorem c1_witness :
    (gs "x" = [] ∨ (gs "x").head? ≠ some '/') ∧
    (∃ m, svcPlain.EvalPath (gs "x") = .error ⟨StatusBadRequest, m⟩) ∧
    svcPlain.EvalPath (gs "/") = .ok (rootLoc svcPlain) := by
  have h : gs "x" = [] ∨ (gs "x").head? ≠ some '/' := by simp [gs]
  exact ⟨h, (c1_eval_path svcPlain (gs "x")).1 h,
    (c1_eval_path svcPlain (gs "/")).2.2.1⟩

/-! ### C2 — property aggregation -/

/-- The merged attribute value for key `k` as the specification describes
it: identifier/title/description (when non-empty) override the free-form
attributes. -/
def mergedAttrSpec (core : ObjCore Obj) (k : GoStr) : Option Val :=
  if k = DescriptionProperty ∧ core.description ≠ [] then some (.vStr core.description)
  else if k = TitleProperty ∧ core.title ≠ [] then some (.vStr core.title)
  else if k = IdentifierProperty ∧ core.identifier ≠ [] then some (.vStr core.identifier)
  else lookupLast (core.attrReader.getD []) k

/-- The specification's link-list groups, in their fixed order. -/
def specLinks (loc : LocObj) : List VLink :=
  (match loc.obj.core.collection with
   | some (itemRole, items) =>
     items.map (fun item => (⟨itemRole, pathEscape item.core.identifier, item.core.title⟩ : VLink))
   | none => []) ++
  (match loc.anc with
   | parent :: _ => [(⟨loc.obj.core.collectionRole, gs "..", parent.core.title⟩ : VLink)]
   | [] => []) ++
  (match loc.obj.core.linkReader with
   | some stored => stored.map (fun l =>
       (⟨l.role, AbsPath ⟨l.targetAnc, l.target⟩, l.target.core.title⟩ : VLink))
   | none => []) ++
  (if loc.obj.core.hasPVReader || loc.obj.core.hasPVWriter then
     [(⟨gs "service", gs "~pv", gs "PV Service"⟩ : VLink)] else []) ++
  (if loc.obj.core.hasHistoryReader || loc.obj.core.hasHistoryWriter then
     [(⟨gs "service", gs "~hist", gs "History Service"⟩ : VLink)] else [])

set_option synthInstance.maxHeartbeats 1000000 in
/-- C2: on every resolved object, `ReadProperties` returns the free-form
attributes merged with the non-empty identifier, title and description
(those three overriding same-named free-form attributes), and the link list
is exactly: child links (role = the collection's item role, target = the
escaped child identifier, title = the child's title) when the object is a
collection, then the parent link (role = the item's collection role, target
= `..`, title = the parent's title) when the object is an item, then the
stored links (role, absolute escaped target path, target title) when the
object reads links, then a `service` link to `~pv` when the object reads or
writes PVs, then a `service` link to `~hist` when the object reads or
writes history. -/
theorem c2_read_properties (s : Service) (p : GoStr) (loc : LocObj)
    (h : s.EvalPath p = .ok loc) :
    ∃ attr links, s.ReadProperties p = .ok (attr, links) ∧
      links = specLinks loc ∧
      (∀ k, lookupAttr attr k = mergedAttrSpec loc.obj.core k) := by
  obtain ⟨anc, obj⟩ := loc
  unfold Service.ReadProperties
  rw [h]
  refine ⟨_, _, rfl, ?_, ?_⟩
  · unfold specLinks
    cases anc with
    | nil =>
      cases hlr : obj.core.linkReader <;>
        cases hpv : (obj.core.hasPVReader || obj.core.hasPVWriter) <;>
          cases hh : (obj.core.hasHistoryReader || obj.core.hasHistoryWriter) <;>
            simp [hlr, hpv, hh]
    | cons parent rest =>
      cases hlr : obj.core.linkReader <;>
        cases hpv : (obj.core.hasPVReader || obj.core.hasPVWriter) <;>
          cases hh : (obj.core.hasHistoryReader || obj.core.hasHistoryWriter) <;>
            simp [hlr, hpv, hh]
  · intro k
    have hdt : DescriptionProperty ≠ TitleProperty := by decide
    have hdi : DescriptionProperty ≠ IdentifierProperty := by decide
    have hti : TitleProperty ≠ IdentifierProperty := by decide
    have htd : TitleProperty ≠ DescriptionProperty := by decide
    have hid : IdentifierProperty ≠ DescriptionProperty := by decide
    have hit : IdentifierProperty ≠ TitleProperty := by decide
    have hcopy : ∀ (kvs : List (GoStr × Val)) (k' : GoStr),
        lookupAttr (kvs.foldl (fun m kv => setAttrVal m kv.1 kv.2) []) k' = lookupLast kvs k' := by
      intro kvs k'
      rw [lookupAttr_copy]
      cases lookupLast kvs k' <;> rfl
    have hlknil : ∀ k' : GoStr, lookupAttr [] k' = none := fun _ => rfl
    have hllnil : ∀ k' : GoStr, lookupLast [] k' = none := fun _ => rfl
    unfold mergedAttrSpec
    by_cases hd : obj.core.description = [] <;>
      by_cases ht : obj.core.title = [] <;>
        by_cases hi : obj.core.identifier = [] <;>
          cases har : obj.core.attrReader <;>
            by_cases hk1 : k = DescriptionProperty <;>
              by_cases hk2 : k = TitleProperty <;>
                by_cases hk3 : k = IdentifierProperty <;>
                  simp_all [lookupAttr_setAttrVal, hcopy, hlknil, hllnil]

/-- Witness for C2 at a concrete service whose root has free-form
attributes, children, a stored link, history read capability. -/
theorem c2_witness :
    svcRich.EvalPath (gs "/") = .ok (rootLoc svcRich) ∧
    (∃ attr links, svcRich.ReadProperties (gs "/") = .ok (attr, links) ∧
      links = specLinks (rootLoc svcRich) ∧
      (∀ k, lookupAttr attr k = mergedAttrSpec (rootLoc svcRich).obj.core k)) := by
  have h : svcRich.EvalPath (gs "/") = .ok (rootLoc svcRich) := by
    simp [Service.EvalPath, gs, evalPathRecursive]
  exact ⟨h, c2_read_properties svcRich (gs "/") (rootLoc svcRich) h⟩

/-! ### C3 — property write -/

/-- C3: `WriteProperties` on `/` writes the root's attributes directly (and
`setAttr` delegates to the attribute-write capability, failing
method-not-allowed without it); on any other path the parent path is
resolved and (i) an existing child with the last path segment as identifier
receives the attribute write with created = false, (ii) a missing child is
created through the parent's `CollectionModifier` with created = true on
success, (iii) without that capability the call fails method-not-allowed. -/
theorem c3_write_properties (s : Service) (p : GoStr) (attrs : List (GoStr × Val)) :
    (p = gs "/" → s.WriteProperties p attrs = (false, setAttr p s.Root attrs)) ∧
    (∀ obj, obj.core.attributeWriter = none →
      setAttr p obj attrs =
        some ⟨StatusMethodNotAllowed, gs "Writing of attributes not supported: " ++ p⟩) ∧
    (∀ obj w, obj.core.attributeWriter = some w → setAttr p obj attrs = w attrs) ∧
    (p ≠ gs "/" → ∀ co childLoc, s.EvalPath (goDir p) = .ok co →
      GetItem co (goBase p) = .ok childLoc →
      s.WriteProperties p attrs = (false, setAttr p childLoc.obj attrs)) ∧
    (p ≠ gs "/" → ∀ co e, s.EvalPath (goDir p) = .ok co →
      GetItem co (goBase p) = .error e →
      ((co.obj.core.collectionModifier = none →
        s.WriteProperties p attrs =
          (false, some ⟨StatusMethodNotAllowed, gs "Create not supported: " ++ p⟩)) ∧
       (∀ ci di, co.obj.core.collectionModifier = some (ci, di) →
         s.WriteProperties p attrs =
           match ci (goBase p) attrs with
           | some e2 => (false, some e2)
           | none => (true, none)))) ∧
    (p ≠ gs "/" → ∀ e, s.EvalPath (goDir p) = .error e →
      s.WriteProperties p attrs = (false, some e)) := by
  refine ⟨?_, ?_, ?_, ?_, ?_, ?_⟩
  · intro hp
    unfold Service.WriteProperties
    rw [if_pos hp]
  · intro obj hw
    unfold setAttr
    rw [hw]
  · intro obj w hw
    unfold setAttr
    rw [hw]
  · intro hp co childLoc hev hgi
    unfold Service.WriteProperties
    rw [if_neg hp]
    simp only [hev, hgi]
  · intro hp co e hev hgi
    constructor
    · intro hmod
      unfold Service.WriteProperties
      rw [if_neg hp]
      simp only [hev, hgi, hmod]
    · intro ci di hmod
      unfold Service.WriteProperties
      rw [if_neg hp]
      simp only [hev, hgi, hmod]
  · intro hp e hev
    unfold Service.WriteProperties
    rw [if_neg hp]
    simp only [hev]

/-- Witness for C3: writing to `/a` below a root that holds the child `a`
delegates the attribute write to that child. -/
theorem c3_witness :
    (gs "/a" ≠ gs "/") ∧
    svcPlain.EvalPath (goDir (gs "/a")) = .ok (rootLoc svcPlain) ∧
    GetItem (rootLoc svcPlain) (goBase (gs "/a")) = .ok ⟨[rootPlain], leafA⟩ ∧
    svcPlain.WriteProperties (gs "/a") [] = (false, setAttr (gs "/a") leafA []) := by
  have hne : gs "/a" ≠ gs "/" := by decide
  have hdir : goDir (gs "/a") = gs "/" := by decide
  have hev : svcPlain.EvalPath (goDir (gs "/a")) = .ok (rootLoc svcPlain) := by
    rw [hdir]; simp [Service.EvalPath, gs, evalPathRecursive]
  have hgi : GetItem (rootLoc svcPlain) (goBase (gs "/a")) = .ok ⟨[rootPlain], leafA⟩ := by
    rfl
  exact ⟨hne, hev, hgi,
    (c3_write_properties svcPlain (gs "/a") []).2.2.2.1 hne _ _ hev hgi⟩

/-! ### C5 — delete -/

/-- C5: deleting the root always fails method-not-allowed; for any other
path the parent is resolved (a resolution error is returned as-is), the
call fails method-not-allowed when the parent lacks the collection-mutation
capability, and otherwise removal is delegated to the parent's delete-item
operation on the last path segment, its result returned verbatim. -/
theorem c5_delete (s : Service) (p : GoStr) :
    (s.Delete (gs "/") = some ⟨StatusMethodNotAllowed, gs "Root can not be deleted"⟩) ∧
    (p ≠ gs "/" → ∀ co, s.EvalPath (goDir p) = .ok co →
      ((co.obj.core.collectionModifier = none →
         s.Delete p = some ⟨StatusMethodNotAllowed, gs "Delete not supported: " ++ p⟩) ∧
       (∀ ci di, co.obj.core.collectionModifier = some (ci, di) →
         s.Delete p = di (goBase p)))) ∧
    (p ≠ gs "/" → ∀ e, s.EvalPath (goDir p) = .error e → s.Delete p = some e) := by
  refine ⟨?_, ?_, ?_⟩
  · unfold Service.Delete
    rw [if_pos rfl]
  · intro hp co hev
    constructor
    · intro hmod
      unfold Service.Delete
      rw [if_neg hp]
      simp only [hev, hmod]
    · intro ci di hmod
      unfold Service.Delete
      rw [if_neg hp]
      simp only [hev, hmod]
  · intro hp e hev
    unfold Service.Delete
    rw [if_neg hp]
    simp only [hev]

/-- Witness for C5: the root refuses deletion, and deleting `/a` below a
mutable root delegates to the delete-item operation. -/
theorem c5_witness :
    svcRich.Delete (gs "/") = some ⟨StatusMethodNotAllowed, gs "Root can not be deleted"⟩ ∧
    (gs "/a" ≠ gs "/") ∧
    svcRich.EvalPath (goDir (gs "/a")) = .ok (rootLoc svcRich) ∧
    svcRich.Delete (gs "/a") = none := by
  have hne : gs "/a" ≠ gs "/" := by decide
  have hdir : goDir (gs "/a") = gs "/" := by decide
  have hev : svcRich.EvalPath (goDir (gs "/a")) = .ok (rootLoc svcRich) := by
    rw [hdir]; simp [Service.EvalPath, gs, evalPathRecursive]
  have hmod : (rootLoc svcRich).obj.core.collectionModifier =
      some ((fun _ _ => none), (fun _ => none)) := rfl
  exact ⟨(c5_delete svcRich (gs "/")).1, hne, hev,
    ((c5_delete svcRich (gs "/a")).2.1 hne _ hev).2 _ _ hmod⟩

/-! ### C4 — history GET parameter handling -/

theorem parseIntParam_error_code (params : QueryParams) (name : GoStr) (e : VErr)
    (h : parseIntParam params name = .error e) : e.code = StatusBadRequest := by
  unfold parseIntParam at h
  cases hl : lookupParam params name with
  | none => simp [hl] at h
  | some values =>
    simp only [hl] at h
    cases values with
    | nil => simp at h; subst h; rfl
    | cons txt rest =>
      cases rest with
      | nil =>
        cases hp : parseInt64 txt with
        | some i => simp [hp] at h
        | none => simp [hp] at h; subst h; rfl
      | cons b r2 => simp at h; subst h; rfl

theorem parseTimeParam_error_code (params : QueryParams) (name : GoStr) (e : VErr)
    (h : parseTimeParam params name = .error e) : e.code = StatusBadRequest := by
  unfold parseTimeParam at h
  cases hi : parseIntParam params name with
  | error e0 =>
    simp only [hi] at h
    cases h
    exact parseIntParam_error_code params name _ hi
  | ok o =>
    simp only [hi] at h
    cases o <;> simp at h

theorem parseIntParam_absent (params : QueryParams) (name : GoStr)
    (h : lookupParam params name = none) : parseIntParam params name = .ok none := by
  unfold parseIntParam
  rw [h]

theorem parseIntParam_present (params : QueryParams) (name : GoStr)
    (h : lookupParam params name ≠ none) : parseIntParam params name ≠ .ok none := by
  unfold parseIntParam
  cases hl : lookupParam params name with
  | none => exact absurd hl h
  | some values =>
    simp only [hl]
    cases values with
    | nil => simp
    | cons txt rest =>
      cases rest with
      | nil => cases hp : parseInt64 txt <;> simp [hp]
      | cons b r2 => simp

theorem parseTimeParam_absent (params : QueryParams) (name : GoStr)
    (h : lookupParam params name = none) : parseTimeParam params name = .ok none := by
  unfold parseTimeParam
  rw [parseIntParam_absent params name h]

theorem parseTimeParam_present (params : QueryParams) (name : GoStr)
    (h : lookupParam params name ≠ none) : parseTimeParam params name ≠ .ok none := by
  unfold parseTimeParam
  cases hi : parseIntParam params name with
  | error e => simp
  | ok o =>
    cases o with
    | none => exact absurd hi (parseIntParam_present params name h)
    | some i => simp

/-- C4: when both `begin` and `end` are absent the service is invoked with
`end = now` and `begin = now` minus 24 hours; when exactly one of the two is
present the request fails bad-request before the service is invoked; the
`limit` parameter is clamped to the configured maximum (10000 by default):
a limit above the maximum, or an absent limit, invokes the service with the
maximum, and clamping itself never produces an error. -/
theorem c4_serve_history (cfgLimit now : Int) (params : QueryParams) :
    (historySizeLimit 0 = 10000) ∧
    (lookupParam params (gs "begin") = none → lookupParam params (gs "end") = none →
      ∀ lopt, parseIntParam params (gs "limit") = .ok lopt →
        serveHistoryArgs cfgLimit now params =
          .ok (now - nanos24h, now,
            match lopt with
            | some l => if l > historySizeLimit cfgLimit then historySizeLimit cfgLimit else l
            | none => historySizeLimit cfgLimit)) ∧
    (lookupParam params (gs "begin") ≠ none → lookupParam params (gs "end") = none →
      ∃ e, serveHistoryArgs cfgLimit now params = .error e ∧ e.code = StatusBadRequest) ∧
    (lookupParam params (gs "begin") = none → lookupParam params (gs "end") ≠ none →
      ∃ e, serveHistoryArgs cfgLimit now params = .error e ∧ e.code = StatusBadRequest) ∧
    (∀ b e2 lopt, parseTimeParam params (gs "begin") = .ok (some b) →
      parseTimeParam params (gs "end") = .ok (some e2) →
      parseIntParam params (gs "limit") = .ok lopt →
      serveHistoryArgs cfgLimit now params =
        .ok (b, e2,
          match lopt with
          | some l => if l > historySizeLimit cfgLimit then historySizeLimit cfgLimit else l
          | none => historySizeLimit cfgLimit)) := by
  refine ⟨rfl, ?_, ?_, ?_, ?_⟩
  · intro hb he lopt hl
    unfold serveHistoryArgs
    simp only [parseTimeParam_absent params (gs "begin") hb,
      parseTimeParam_absent params (gs "end") he, hl]
  · intro hb he
    cases hbt : parseTimeParam params (gs "begin") with
    | error e =>
      refine ⟨e, ?_, parseTimeParam_error_code params (gs "begin") e hbt⟩
      unfold serveHistoryArgs
      simp [hbt]
    | ok bo =>
      cases bo with
      | none => exact absurd hbt (parseTimeParam_present params (gs "begin") hb)
      | some b =>
        refine ⟨⟨StatusBadRequest, gs "Missing request parameter: end"⟩, ?_, rfl⟩
        unfold serveHistoryArgs
        simp [hbt, parseTimeParam_absent params (gs "end") he]
  · intro hb he
    cases het : parseTimeParam params (gs "end") with
    | error e =>
      refine ⟨e, ?_, parseTimeParam_error_code params (gs "end") e het⟩
      unfold serveHistoryArgs
      simp [het, parseTimeParam_absent params (gs "begin") hb]
    | ok eo =>
      cases eo with
      | none => exact absurd het (parseTimeParam_present params (gs "end") he)
      | some e2 =>
        refine ⟨⟨StatusBadRequest, gs "Missing request parameter: begin"⟩, ?_, rfl⟩
        unfold serveHistoryArgs
        simp [het, parseTimeParam_absent params (gs "begin") hb]
  · intro b e2 lopt hbt het hl
    unfold serveHistoryArgs
    simp only [hbt, het, hl]

/-- Witness for C4: with no parameters at all the service window defaults
to the trailing 24 hours and the default limit 10000; with only `begin`
present the call fails bad-request; an over-limit value is clamped. -/
theorem c4_witness :
    (lookupParam ([] : QueryParams) (gs "begin") = none) ∧
    serveHistoryArgs 0 500 [] = .ok (500 - nanos24h, 500, 10000) ∧
    (lookupParam [(gs "begin", [gs "1"])] (gs "begin") ≠ none) ∧
    (∃ e, serveHistoryArgs 0 500 [(gs "begin", [gs "1"])] = .error e ∧
      e.code = StatusBadRequest) ∧
    serveHistoryArgs 0 500
        [(gs "begin", [gs "1"]), (gs "end", [gs "2"]), (gs "limit", [gs "20000"])] =
      .ok (1000000, 2000000, 10000) := by
  refine ⟨rfl, ?_, ?_, ?_, ?_⟩
  · have := (c4_serve_history 0 500 []).2.1 rfl rfl none rfl
    simpa [historySizeLimit] using this
  · decide
  · exact (c4_serve_history 0 500 [(gs "begin", [gs "1"])]).2.2.1 (by decide) rfl
  · have := (c4_serve_history 0 500
        [(gs "begin", [gs "1"]), (gs "end", [gs "2"]), (gs "limit", [gs "20000"])]).2.2.2.2
        1000000 2000000 (some 20000) rfl rfl rfl
    simpa [historySizeLimit] using this

/-! ### C7 — link-set algebra

The claim quantifies over every link set; on a set that already contains
the pair `(t, r)` the first of two successive `PutLink(t, r)` calls already
returns `false`, so the claim as stated fails there.  On a set not yet
containing the pair, everything the claim says holds. -/

/-- Counterexample to C7 as stated: on the link set already containing
`(0, "r")` the first `PutLink(0, "r")` call does not return `true`. -/
theorem c7_counterexample :
    ¬ (((⟨[(0, gs "r")]⟩ : BasicLinks Nat).PutLink 0 (gs "r")).1 = true) := by
  decide

/-- C7 (amended): for every link set that does not already contain the pair
`(t, r)`: `PutLink(t, r)` twice returns `true` then `false` and the second
call leaves the set unchanged; `RemoveLink(t, r)` on the original set
returns `false` and changes nothing; `RemoveLink(t, r)` after the
successful `PutLink(t, r)` returns `true`, after which `(t, r)` is no
longer among the links `ReadLinks` returns. -/
theorem c7_put_remove_links {α : Type} [DecidableEq α] (l : BasicLinks α) (t : α) (r : GoStr)
    (h : (t, r) ∉ l.lobj) :
    (l.PutLink t r).1 = true ∧
    ((l.PutLink t r).2.PutLink t r) = (false, (l.PutLink t r).2) ∧
    (l.RemoveLink t r) = (false, l) ∧
    ((l.PutLink t r).2.RemoveLink t r).1 = true ∧
    (t, r) ∉ ((l.PutLink t r).2.RemoveLink t r).2.ReadLinks := by
  unfold BasicLinks.PutLink BasicLinks.RemoveLink BasicLinks.ReadLinks
  simp [h, List.erase_cons_head]

/-- Witness for C7 (amended) on the empty link set. -/
theorem c7_witness :
    ((0, gs "r") ∉ (⟨[]⟩ : BasicLinks Nat).lobj) ∧
    (((⟨[]⟩ : BasicLinks Nat).PutLink 0 (gs "r")).1 = true ∧
     (((⟨[]⟩ : BasicLinks Nat).PutLink 0 (gs "r")).2.PutLink 0 (gs "r")) =
       (false, ((⟨[]⟩ : BasicLinks Nat).PutLink 0 (gs "r")).2) ∧
     ((⟨[]⟩ : BasicLinks Nat).RemoveLink 0 (gs "r")) = (false, (⟨[]⟩ : BasicLinks Nat)) ∧
     (((⟨[]⟩ : BasicLinks Nat).PutLink 0 (gs "r")).2.RemoveLink 0 (gs "r")).1 = true ∧
     (0, gs "r") ∉ (((⟨[]⟩ : BasicLinks Nat).PutLink 0 (gs "r")).2.RemoveLink 0
       (gs "r")).2.ReadLinks) := by
  have h : (0, gs "r") ∉ (⟨[]⟩ : BasicLinks Nat).lobj := by decide
  exact ⟨h, c7_put_remove_links (⟨[]⟩ : BasicLinks Nat) 0 (gs "r") h⟩

/-! ### C9 — collection snapshots

`BasicCollection.Items` iterates the Go member map, whose iteration order
is unspecified and unrelated to insertion order; the map state does not
record insertion order at all.  Two insertion sequences that differ only in
their order produce extensionally equal maps, so `Items` — a function of
the map state — cannot return the insertion order of both.  The claim that
the order of `Items()` is the insertion order therefore fails; what holds
is that `Items` is a snapshot containing exactly the current members. -/

theorem mem_insSorted {β : Type} {m : List (GoStr × β)} {id : GoStr} {obj : β}
    {x : GoStr × β} (hx : x ∈ insSorted m id obj) : x = (id, obj) ∨ x ∈ m := by
  induction m with
  | nil => simpa [insSorted] using hx
  | cons kv rest ih =>
    simp only [insSorted] at hx
    by_cases h1 : kv.1 = id
    · rw [if_pos h1] at hx
      rcases List.mem_cons.mp hx with rfl | hx
      · exact .inl rfl
      · exact .inr (List.mem_cons_of_mem kv hx)
    · rw [if_neg h1] at hx
      by_cases h2 : goStrLt id kv.1 = true
      · rw [if_pos h2] at hx
        rcases List.mem_cons.mp hx with rfl | hx
        · exact .inl rfl
        · exact .inr hx
      · rw [if_neg h2] at hx
        rcases List.mem_cons.mp hx with hx0 | hx
        · exact .inr (List.mem_cons.mpr (.inl hx0))
        · rcases ih hx with h | h
          · exact .inl h
          · exact .inr (List.mem_cons_of_mem kv h)

/-- Keys of the canonical member list are strictly increasing. -/
def KeysSorted {β : Type} (m : List (GoStr × β)) : Prop :=
  m.Pairwise (fun x y => x.1 < y.1)

theorem keysSorted_insSorted {β : Type} {m : List (GoStr × β)} (hs : KeysSorted m)
    (id : GoStr) (obj : β) : KeysSorted (insSorted m id obj) := by
  induction m with
  | nil => simp [insSorted, KeysSorted]
  | cons kv rest ih =>
    have hkv : ∀ y ∈ rest, kv.1 < y.1 := (List.pairwise_cons.mp hs).1
    have hs' : KeysSorted rest := (List.pairwise_cons.mp hs).2
    simp only [insSorted]
    by_cases h1 : kv.1 = id
    · rw [if_pos h1]
      exact List.pairwise_cons.mpr ⟨fun y hy => h1 ▸ hkv y hy, hs'⟩
    · rw [if_neg h1]
      by_cases h2 : goStrLt id kv.1 = true
      · rw [if_pos h2]
        have hlt : id < kv.1 := of_decide_eq_true h2
        refine List.pairwise_cons.mpr ⟨?_, hs⟩
        intro y hy
        rcases List.mem_cons.mp hy with rfl | hy
        · exact hlt
        · exact lt_trans hlt (hkv y hy)
      · rw [if_neg h2]
        have hle : ¬ id < kv.1 := fun hc => h2 (decide_eq_true hc)
        have hlt : kv.1 < id := lt_of_le_of_ne (not_lt.mp hle) h1
        refine List.pairwise_cons.mpr ⟨?_, ih hs'⟩
        intro y hy
        rcases mem_insSorted hy with rfl | hy
        · exact hlt
        · exact hkv y hy

theorem find?_insSorted {β : Type} (m : List (GoStr × β)) (id : GoStr) (obj : β) (k : GoStr) :
    ((insSorted m id obj).find? (fun kv => decide (kv.1 = k))).map (fun kv => kv.2) =
      (if k = id then some obj
       else (m.find? (fun kv => decide (kv.1 = k))).map (fun kv => kv.2)) := by
  induction m with
  | nil =>
    by_cases h : k = id
    · subst h; simp [insSorted]
    · simp [insSorted, h, Ne.symm h]
  | cons kv rest ih =>
    obtain ⟨a, v⟩ := kv
    simp only [insSorted]
    by_cases h1 : a = id
    · subst h1
      rw [if_pos rfl]
      by_cases hk : k = a
      · subst hk; simp
      · simp [hk, Ne.symm hk]
    · rw [if_neg h1]
      by_cases h2 : goStrLt id a = true
      · rw [if_pos h2]
        by_cases hk : k = id
        · subst hk; simp
        · simp [hk, Ne.symm hk]
      · rw [if_neg h2]
        simp only [List.find?]
        by_cases hak : a = k
        · have hki : ¬ (k = id) := fun hc => h1 (hak.trans hc)
          rw [decide_eq_true hak, if_neg hki]
        · rw [decide_eq_false hak]
          by_cases hk : k = id
          · subst hk
            simp only [ih, if_pos rfl]
          · simp only [ih, if_neg hk]

theorem find?_mem_sorted {β : Type} {m : List (GoStr × β)} (hs : KeysSorted m)
    {kv : GoStr × β} (hmem : kv ∈ m) :
    m.find? (fun x => decide (x.1 = kv.1)) = some kv := by
  induction m with
  | nil => cases hmem
  | cons hd rest ih =>
    have hhd : ∀ y ∈ rest, hd.1 < y.1 := (List.pairwise_cons.mp hs).1
    have hs' : KeysSorted rest := (List.pairwise_cons.mp hs).2
    rcases List.mem_cons.mp hmem with rfl | hmem
    · simp [List.find?]
    · have hne : hd.1 ≠ kv.1 := ne_of_lt (hhd kv hmem)
      simp only [List.find?]
      rw [decide_eq_false hne]
      exact ih hs' hmem

theorem applyPuts_sorted {β : Type} (ops : List (GoStr × β)) :
    KeysSorted (applyPuts ops).objects := by
  suffices h : ∀ c : BasicCollection β, KeysSorted c.objects →
      KeysSorted ((ops.foldl (fun c op => (c.PutItem op.1 op.2).2) c).objects) by
    exact h BasicCollection.empty (by simp [BasicCollection.empty, KeysSorted])
  induction ops with
  | nil => intro c hc; exact hc
  | cons op rest ih =>
    intro c hc
    exact ih _ (keysSorted_insSorted hc op.1 op.2)

theorem applyPuts_item {β : Type} (ops : List (GoStr × β)) (id : GoStr) :
    (applyPuts ops).Item id = specLookup ops id := by
  suffices h : ∀ c : BasicCollection β,
      (ops.foldl (fun c op => (c.PutItem op.1 op.2).2) c).Item id =
        match specLookup ops id with
        | some v => some v
        | none => c.Item id by
    unfold applyPuts
    rw [h BasicCollection.empty]
    cases specLookup ops id <;> rfl
  intro c
  induction ops generalizing c with
  | nil => simp [specLookup]
  | cons op rest ih =>
    simp only [List.foldl_cons, specLookup]
    rw [ih]
    have hstep : ((c.PutItem op.1 op.2).2).Item id =
        if id = op.1 then some op.2 else c.Item id := by
      unfold BasicCollection.PutItem BasicCollection.Item
      exact find?_insSorted c.objects op.1 op.2 id
    rw [hstep]
    cases hsl : specLookup rest id with
    | some v => rfl
    | none =>
      by_cases h : op.1 = id
      · subst h; simp
      · have h' : ¬ (id = op.1) := fun hc => h hc.symm
        simp [h, h']

theorem mem_items_iff {β : Type} (c : BasicCollection β) (hs : KeysSorted c.objects) (b : β) :
    b ∈ c.Items ↔ ∃ id, c.Item id = some b := by
  constructor
  · intro hb
    rcases List.mem_map.mp hb with ⟨kv, hkv, rfl⟩
    refine ⟨kv.1, ?_⟩
    unfold BasicCollection.Item
    rw [find?_mem_sorted hs hkv]
    rfl
  · rintro ⟨id, hid⟩
    unfold BasicCollection.Item at hid
    cases hf : c.objects.find? (fun x => decide (x.1 = id)) with
    | none => rw [hf] at hid; cases hid
    | some kv =>
      rw [hf] at hid
      have hkv : kv ∈ c.objects := List.mem_of_find?_eq_some hf
      have : kv.2 = b := by simpa using hid
      exact this ▸ List.mem_map_of_mem (fun kv => kv.2) hkv

/-- Counterexample to C9 as stated: inserting `b` then `a` and inserting
`a` then `b` produce the same collection state, so `Items` returns the
same snapshot for both; in particular for the first sequence it does not
return its insertion order `[1, 2]`. -/
theorem c9_counterexample :
    ((((BasicCollection.empty : BasicCollection Nat).PutItem (gs "b") 1).2.PutItem
        (gs "a") 2).2.objects =
      (((BasicCollection.empty : BasicCollection Nat).PutItem (gs "a") 2).2.PutItem
        (gs "b") 1).2.objects) ∧
    ((((BasicCollection.empty : BasicCollection Nat).PutItem (gs "b") 1).2.PutItem
        (gs "a") 2).2.Items =
      (((BasicCollection.empty : BasicCollection Nat).PutItem (gs "a") 2).2.PutItem
        (gs "b") 1).2.Items) ∧
    ¬ ((((BasicCollection.empty : BasicCollection Nat).PutItem (gs "b") 1).2.PutItem
        (gs "a") 2).2.Items = [1, 2]) := by
  refine ⟨by decide, by decide, by decide⟩

/-- C9 (amended): for every sequence of item insertions, `Items` returns a
snapshot containing exactly the current children — the child stored under
each identifier is the last one inserted for it, and a member is in the
snapshot exactly when some identifier currently maps to it; the order of
the snapshot is unspecified (the member map does not record insertion
order). -/
theorem c9_items_snapshot {β : Type} (ops : List (GoStr × β)) :
    (∀ id, (applyPuts ops).Item id = specLookup ops id) ∧
    (∀ b, b ∈ (applyPuts ops).Items ↔ ∃ id, specLookup ops id = some b) := by
  constructor
  · intro id
    exact applyPuts_item ops id
  · intro b
    rw [mem_items_iff (applyPuts ops) (applyPuts_sorted ops) b]
    constructor
    · rintro ⟨id, hid⟩
      exact ⟨id, (applyPuts_item ops id) ▸ hid⟩
    · rintro ⟨id, hid⟩
      exact ⟨id, (applyPuts_item ops id).symm ▸ hid⟩

/-! ### C6 — escaped-path round trip -/

theorem isHex_upperHexDigit (n : Nat) (h : n < 16) :
    isHexChar (upperHexDigit n) = true := by
  interval_cases n <;> decide

theorem unhexVal_upperHexDigit (n : Nat) (h : n < 16) :
    unhexVal (upperHexDigit n) = n := by
  interval_cases n <;> decide

theorem slash_ne_upperHexDigit (n : Nat) (h : n < 16) :
    upperHexDigit n ≠ '/' := by
  interval_cases n <;> decide

theorem percent_should_escape : shouldEscapePathSegment '%' = true := by decide

theorem slash_should_escape : shouldEscapePathSegment '/' = true := by decide

/-- One unfolding step of `pathUnescape` on a non-empty string. -/
theorem pathUnescape_cons (c : Char) (rest : GoStr) :
    pathUnescape (c :: rest) =
      (if c = '%' then
        match rest with
        | h :: l :: rest2 =>
          if isHexChar h && isHexChar l then
            (pathUnescape rest2).map (fun t => Char.ofNat (16 * unhexVal h + unhexVal l) :: t)
          else none
        | _ => none
      else (pathUnescape rest).map (fun t => c :: t)) := by
  match rest with
  | [] => rfl
  | [h] => rfl
  | h :: l :: r2 => rfl

/-- Decoding an escaped byte at the head of a string recovers the byte. -/
theorem pathUnescape_escapeChar_append (c : Char) (hc : c.toNat < 256) (rest : GoStr) :
    pathUnescape (escapeChar c ++ rest) = (pathUnescape rest).map (fun t => c :: t) := by
  by_cases hesc : shouldEscapePathSegment c = true
  · have hdiv : c.toNat / 16 < 16 := by omega
    have hmod : c.toNat % 16 < 16 := by omega
    simp only [escapeChar, if_pos hesc, List.cons_append, List.nil_append]
    rw [pathUnescape_cons]
    rw [if_pos rfl]
    simp only [isHex_upperHexDigit _ hdiv, isHex_upperHexDigit _ hmod,
      Bool.and_self, if_pos rfl]
    rw [unhexVal_upperHexDigit _ hdiv, unhexVal_upperHexDigit _ hmod]
    have hval : 16 * (c.toNat / 16) + c.toNat % 16 = c.toNat := by omega
    rw [hval, Char.ofNat_toNat]
    simp
  · have hpc : c ≠ '%' := fun hcp => hesc (hcp ▸ percent_should_escape)
    simp only [escapeChar, if_neg hesc, List.cons_append, List.nil_append]
    rw [pathUnescape_cons]
    rw [if_neg hpc]

/-- Escape/unescape round trip on byte strings. -/
theorem pathUnescape_pathEscape (s : GoStr) (hb : ∀ c ∈ s, c.toNat < 256) :
    pathUnescape (pathEscape s) = some s := by
  induction s with
  | nil => rfl
  | cons c cs ih =>
    have hc : c.toNat < 256 := hb c (List.mem_cons_self c cs)
    have hcs : ∀ x ∈ cs, x.toNat < 256 := fun x hx => hb x (List.mem_cons_of_mem c hx)
    have hfold : pathEscape (c :: cs) = escapeChar c ++ pathEscape cs := rfl
    rw [hfold, pathUnescape_escapeChar_append c hc, ih hcs]
    rfl

/-- An escaped byte never contains a slash. -/
theorem slash_not_mem_escapeChar (c : Char) (hc : c.toNat < 256) :
    '/' ∉ escapeChar c := by
  by_cases hesc : shouldEscapePathSegment c = true
  · have hdiv : c.toNat / 16 < 16 := by omega
    have hmod : c.toNat % 16 < 16 := by omega
    simp only [escapeChar, if_pos hesc]
    intro hmem
    rcases List.mem_cons.mp hmem with h | hmem
    · cases h
    rcases List.mem_cons.mp hmem with h | hmem
    · exact slash_ne_upperHexDigit _ hdiv h.symm
    rcases List.mem_cons.mp hmem with h | hmem
    · exact slash_ne_upperHexDigit _ hmod h.symm
    · cases hmem
  · have : c ≠ '/' := fun hcs => hesc (hcs ▸ slash_should_escape)
    simp [escapeChar, if_neg hesc, this]
    intro h
    exact this h.symm

/-- An escaped byte string never contains a slash. -/
theorem slash_not_mem_pathEscape (s : GoStr) (hb : ∀ c ∈ s, c.toNat < 256) :
    '/' ∉ pathEscape s := by
  induction s with
  | nil => simp [pathEscape]
  | cons c cs ih =>
    have hc : c.toNat < 256 := hb c (List.mem_cons_self c cs)
    have hcs : ∀ x ∈ cs, x.toNat < 256 := fun x hx => hb x (List.mem_cons_of_mem c hx)
    have hfold : pathEscape (c :: cs) = escapeChar c ++ pathEscape cs := rfl
    rw [hfold]
    intro hmem
    rcases List.mem_append.mp hmem with h | h
    · exact slash_not_mem_escapeChar c hc h
    · exact ih hcs h

/-- Escaping a non-empty identifier yields a non-empty segment. -/
theorem pathEscape_ne_nil (s : GoStr) (h : s ≠ []) : pathEscape s ≠ [] := by
  match s, h with
  | c :: cs, _ =>
    have hfold : pathEscape (c :: cs) = escapeChar c ++ pathEscape cs := rfl
    rw [hfold]
    unfold escapeChar
    by_cases hesc : shouldEscapePathSegment c = true <;> simp [hesc]

theorem splitFirstSlash_no_slash (s : GoStr) (h : '/' ∉ s) :
    splitFirstSlash s = (s, []) := by
  induction s with
  | nil => rfl
  | cons c rest ih =>
    have hc : c ≠ '/' := fun hcs => h (hcs ▸ List.mem_cons_self c rest)
    have hr : '/' ∉ rest := fun hm => h (List.mem_cons_of_mem c hm)
    simp [splitFirstSlash, hc, ih hr]

theorem splitFirstSlash_append (s r : GoStr) (h : '/' ∉ s) :
    splitFirstSlash (s ++ '/' :: r) = (s, r) := by
  induction s with
  | nil => simp [splitFirstSlash]
  | cons c rest ih =>
    have hc : c ≠ '/' := fun hcs => h (hcs ▸ List.mem_cons_self c rest)
    have hr : '/' ∉ rest := fun hm => h (List.mem_cons_of_mem c hm)
    simp [splitFirstSlash, hc, ih hr]

/-- Descend through `Item` lookups by raw (unescaped) identifiers: the
"object registered under that identifier" relation. -/
def descend (loc : LocObj) : List GoStr → Option LocObj
  | [] => some loc
  | id :: rest =>
    match GetItem loc id with
    | .ok child => descend child rest
    | .error _ => none

/-- The path a list of identifiers is addressed by: a slash before each
escaped identifier. -/
def chainPath (ids : List GoStr) : GoStr :=
  (ids.map (fun id => '/' :: pathEscape id)).join

/-- Segments joined by slashes (the part of the path after the leading
slash). -/
def joinSegs : List GoStr → GoStr
  | [] => []
  | [s] => s
  | s :: rest => s ++ '/' :: joinSegs rest

theorem joinSegs_cons (x : GoStr) (rest : List GoStr) (h : rest ≠ []) :
    joinSegs (x :: rest) = x ++ '/' :: joinSegs rest := by
  match rest, h with
  | y :: r2, _ => rfl

theorem chainPath_eq_joinSegs (l : List GoStr) (h : l ≠ []) :
    chainPath l = '/' :: joinSegs (l.map pathEscape) := by
  induction l with
  | nil => exact absurd rfl h
  | cons x rest ih =>
    by_cases hr : rest = []
    · subst hr
      simp [chainPath, joinSegs]
    · have hmap : rest.map pathEscape ≠ [] := by
        intro hc
        exact hr (List.map_eq_nil.mp hc)
      have ih' := ih hr
      simp only [List.map_cons]
      rw [joinSegs_cons _ _ hmap]
      simp only [chainPath, List.map_cons] at ih' ⊢
      simp [ih']

theorem GetItem_ok (loc out : LocObj) (id : GoStr) (h : GetItem loc id = .ok out) :
    out.anc = loc.obj :: loc.anc ∧ out.obj.core.identifier = id := by
  unfold GetItem at h
  cases hcol : loc.obj.core.collection with
  | none =>
    simp only [hcol] at h
    exact Except.noConfusion h
  | some pair =>
    obtain ⟨role, items⟩ := pair
    simp only [hcol] at h
    cases hf : items.find? (fun o => decide (o.core.identifier = id)) with
    | none =>
      simp only [hf] at h
      exact Except.noConfusion h
    | some child =>
      simp only [hf] at h
      cases h
      have := List.find?_some hf
      exact ⟨rfl, of_decide_eq_true this⟩

/-- Resolving the escaped segments of a chain of identifiers descends
exactly along that chain. -/
theorem evalPathRecursive_descend (ids : List GoStr) (idl : GoStr) (loc out : LocObj)
    (hb : ∀ id ∈ ids ++ [idl], ∀ c ∈ id, c.toNat < 256)
    (hnl : idl ≠ [])
    (hd : descend loc (ids ++ [idl]) = some out) :
    evalPathRecursive loc (joinSegs ((ids ++ [idl]).map pathEscape)) = .ok out := by
  induction ids generalizing loc with
  | nil =>
    have hbl : ∀ c ∈ idl, c.toNat < 256 := hb idl (by simp)
    simp only [List.nil_append, List.map_cons, List.map_nil] at hd ⊢
    have hne : pathEscape idl ≠ [] := pathEscape_ne_nil idl hnl
    have hnos : '/' ∉ pathEscape idl := slash_not_mem_pathEscape idl hbl
    rw [show joinSegs [pathEscape idl] = pathEscape idl from rfl]
    rw [evalPathRecursive_cons loc (pathEscape idl) hne]
    rw [splitFirstSlash_no_slash (pathEscape idl) hnos]
    simp only [pathUnescape_pathEscape idl hbl]
    unfold descend at hd
    cases hg : GetItem loc idl with
    | error e => simp [hg] at hd
    | ok child =>
      simp only [hg] at hd
      simp only [descend] at hd
      cases hd
      simp only [hg]
      simp [evalPathRecursive]
  | cons id rest ih =>
    have hbid : ∀ c ∈ id, c.toNat < 256 := hb id (by simp)
    have hbrest : ∀ x ∈ rest ++ [idl], ∀ c ∈ x, c.toNat < 256 := by
      intro x hx
      exact hb x (by simp at hx ⊢; tauto)
    have hmapne : (rest ++ [idl]).map pathEscape ≠ [] := by simp
    simp only [List.cons_append, List.map_cons] at hd ⊢
    rw [joinSegs_cons _ _ hmapne]
    have hne : pathEscape id ++ '/' :: joinSegs ((rest ++ [idl]).map pathEscape) ≠ [] := by
      intro hc
      have := congrArg List.length hc
      simp at this
    rw [evalPathRecursive_cons _ _ hne]
    rw [splitFirstSlash_append _ _ (slash_not_mem_pathEscape id hbid)]
    simp only [pathUnescape_pathEscape id hbid]
    unfold descend at hd
    cases hg : GetItem loc id with
    | error e => simp [hg] at hd
    | ok child =>
      simp only [hg] at hd
      simp only [hg]
      exact ih child hbrest hd

/-- Descending along identifiers extends the absolute path by exactly the
escaped identifiers. -/
theorem descend_absPathRev (ids : List GoStr) (loc out : LocObj)
    (hd : descend loc ids = some out) :
    absPathRev out.anc out.obj = absPathRev loc.anc loc.obj ++ chainPath ids := by
  induction ids generalizing loc with
  | nil =>
    simp only [descend] at hd
    cases hd
    simp [chainPath]
  | cons id rest ih =>
    unfold descend at hd
    cases hg : GetItem loc id with
    | error e => simp [hg] at hd
    | ok child =>
      simp only [hg] at hd
      obtain ⟨hanc, hident⟩ := GetItem_ok loc child id hg
      have hchild : absPathRev child.anc child.obj =
          absPathRev loc.anc loc.obj ++ '/' :: pathEscape id := by
        rw [hanc]
        simp [absPathRev, hident]
      have := ih child hd
      rw [this, hchild]
      simp [chainPath]

/-- C6: for every identifier that needs percent-escaping and every object
registered under it (possibly below a chain of parent identifiers),
resolving the path formed from the escaped segments yields that object,
and the object's absolute path (`AbsPath`, the walk up the `Item` chain
concatenating escaped identifiers, `/` for the root itself) reproduces the
escaped path — in particular the escaped segment — exactly. -/
theorem c6_escape_roundtrip (s : Service) (ids : List GoStr) (idl : GoStr) (out : LocObj)
    (hb : ∀ id ∈ ids ++ [idl], ∀ c ∈ id, c.toNat < 256)
    (hesc : ∃ c ∈ idl, shouldEscapePathSegment c = true)
    (hd : descend (rootLoc s) (ids ++ [idl]) = some out) :
    s.EvalPath (chainPath (ids ++ [idl])) = .ok out ∧
    AbsPath out = chainPath (ids ++ [idl]) := by
  have hnl : idl ≠ [] := by
    rcases hesc with ⟨c, hc, _⟩
    intro hcon
    rw [hcon] at hc
    cases hc
  have hne : (ids ++ [idl]) ≠ [] := by simp
  have hchain := chainPath_eq_joinSegs (ids ++ [idl]) hne
  constructor
  · rw [hchain]
    simp only [Service.EvalPath, if_true]
    exact evalPathRecursive_descend ids idl (rootLoc s) out hb hnl hd
  · have habs := descend_absPathRev (ids ++ [idl]) (rootLoc s) out hd
    unfold AbsPath
    rw [habs]
    have hroot : absPathRev (rootLoc s).anc (rootLoc s).obj = [] := rfl
    rw [hroot, List.nil_append]
    have : chainPath (ids ++ [idl]) ≠ [] := by
      rw [hchain]
      simp
    rw [if_neg this]

/-- Witness fixture for C6: a root holding a child whose identifier needs
escaping. -/
def leafSp : Obj := .mk ⟨gs "a b", gs "Spaced", [], none, gs "collection",
  false, false, false, false, none, none, none, none⟩

/-- Root of the C6 witness fixture. -/
def rootSp : Obj := .mk ⟨gs "root", [], [], none, [],
  false, false, false, false, none, none, none, some (gs "item", [leafSp])⟩

def svcSp : Service := ⟨rootSp⟩

/-- Witness for C6: the identifier `a b` escapes to `a%20b`; `/a%20b`
resolves to the child and its absolute path is again `/a%20b`. -/
theorem c6_witness :
    (∀ id ∈ [] ++ [gs "a b"], ∀ c ∈ id, c.toNat < 256) ∧
    (∃ c ∈ gs "a b", shouldEscapePathSegment c = true) ∧
    descend (rootLoc svcSp) ([] ++ [gs "a b"]) = some ⟨[rootSp], leafSp⟩ ∧
    chainPath ([] ++ [gs "a b"]) = gs "/a%20b" ∧
    svcSp.EvalPath (chainPath ([] ++ [gs "a b"])) = .ok ⟨[rootSp], leafSp⟩ ∧
    AbsPath ⟨[rootSp], leafSp⟩ = chainPath ([] ++ [gs "a b"]) := by
  have hb : ∀ id ∈ [] ++ [gs "a b"], ∀ c ∈ id, c.toNat < 256 := by decide
  have hesc : ∃ c ∈ gs "a b", shouldEscapePathSegment c = true := by decide
  have hd : descend (rootLoc svcSp) ([] ++ [gs "a b"]) = some ⟨[rootSp], leafSp⟩ := rfl
  obtain ⟨h1, h2⟩ := c6_escape_roundtrip svcSp [] (gs "a b") ⟨[rootSp], leafSp⟩ hb hesc hd
  exact ⟨hb, hesc, hd, by decide, h1, h2⟩
